import Mathlib

set_option maxHeartbeats 1000000
set_option autoImplicit false

namespace Nessie

/-! # Shallow embedding of the nessie client (src/nessie.go)

The one non-trivial piece of the client is `AllPlugins` (src/nessie.go:594),
a concurrent enumeration pipeline: one goroutine per plugin family feeds
plugin IDs into a bounded channel `idChan`, ten worker goroutines drain it,
fetch plugin details and push records into `plugChan`, and a coordinator
goroutine waits on two `sync.WaitGroup`s (`wgf` for families, `wgp` for
pending plugins) to close the two channels in order.

The pipeline is embedded as an interleaving transition system: each
goroutine is a small control-state automaton and one `Action` names the
goroutine that takes its next atomic step.  The remote API is embedded as a
fixed assignment `Env` of a result to every call the pipeline can make
(each call is made at most once per id within one invocation).  The channel
`plugChan` is consumed externally by the caller; its buffer and the
consumer are folded into the ever-growing `emitted` list, which records
every successful send in order. -/

/-- Full detail record for one plugin as decoded from the remote reply
(`PluginDetails` in the client).  Its fields are opaque to the pipeline:
a worker fetches the record and forwards it unchanged, so a single field
suffices for the embedding. -/
structure PluginDetails where
  id : Int
deriving DecidableEq, Repr

/-- Results of the three remote operations `AllPlugins` consumes:
`n.PluginFamilies()` (the family IDs), `n.FamilyDetails(famID)` (the plugin
IDs of one family, `famDetails.Plugins`), and `n.PluginDetails(id)`. -/
structure Env where
  pluginFamilies : Except String (List Int)
  familyDetails : Int → Except String (List Int)
  pluginDetails : Int → Except String PluginDetails

/-- Control state of one family fan-out goroutine (src/nessie.go:607-617).
`start` is before the `n.FamilyDetails(famID)` call; `emitting pending` is
inside the loop over `famDetails.Plugins` with `pending` not yet pushed;
`adding id rest` is between `wgp.Add(1)` and `idChan <- plugin.ID` for
`id`; `done` means the goroutine has exited (and `defer wgf.Done()` ran). -/
inductive FamTask where
  | start (famID : Int)
  | emitting (pending : List Int)
  | adding (id : Int) (rest : List Int)
  | done
deriving DecidableEq, Repr

/-- Control state of one worker goroutine (src/nessie.go:620-632).
`idle` is at the `range idChan` receive; `running id` has dequeued `id`
and its `n.PluginDetails(id)` call is in flight; `sending id rec` is at
`plugChan <- *plugin` after a successful fetch; `deccing` is at the
`wgp.Done()` that follows either the send or a failed fetch; `exited`
means `idChan` was closed and drained and the range loop ended. -/
inductive Worker where
  | idle
  | running (id : Int)
  | sending (id : Int) (rec : PluginDetails)
  | deccing
  | exited
deriving DecidableEq, Repr

/-- Control state of the coordinator goroutine (src/nessie.go:634-642):
`wgf.Wait(); close(idChan); wgp.Wait(); close(plugChan)`. -/
inductive Coord where
  | waitFams
  | closeId
  | waitPlugs
  | closePlug
  | finished
deriving DecidableEq, Repr

/-- Global state of one `AllPlugins` invocation.  `idBuf` is the buffer of
the bounded channel `idChan` (capacity 20); `idClosed` and `plugClosed`
record `close(idChan)` and `close(plugChan)`; `emitted` lists every record
sent on `plugChan`, paired with the plugin ID it was fetched for; `wgf`
and `wgp` are the two `sync.WaitGroup` counters. -/
structure PState where
  fams : List FamTask
  workers : List Worker
  idBuf : List Int
  idClosed : Bool
  plugClosed : Bool
  emitted : List (Int × PluginDetails)
  wgf : Nat
  wgp : Nat
  coord : Coord
deriving DecidableEq, Repr

/-- Capacity of `idChan` (`make(chan int64, 20)`, src/nessie.go:601). -/
def idChanCap : Nat := 20

/-- Number of worker goroutines (`for i := 0; i < 10; i++`,
src/nessie.go:620). -/
def numWorkers : Nat := 10

/-- State right after the setup code of `AllPlugins` returns: the loop over
`families` has run `wgf.Add(1)` and spawned one goroutine per family, the
ten workers and the coordinator are spawned, nothing has executed yet. -/
def initState (families : List Int) : PState where
  fams := families.map FamTask.start
  workers := List.replicate numWorkers Worker.idle
  idBuf := []
  idClosed := false
  plugClosed := false
  emitted := []
  wgf := families.length
  wgp := 0
  coord := Coord.waitFams

/-- One atomic step of family goroutine number `i`, or `none` if it is
finished, blocked, or does not exist.  A blocked send (`idChan` full) and a
send on a closed channel (a Go panic) are both embedded as the absence of
a step. -/
def famStep (env : Env) (s : PState) (i : Nat) : Option PState :=
  match s.fams[i]? with
  | Option.none => none
  | Option.some t =>
    match t with
    | FamTask.start famID =>
      match env.familyDetails famID with
      | Except.error _ => some { s with fams := s.fams.set i FamTask.done, wgf := s.wgf - 1 }
      | Except.ok ids => some { s with fams := s.fams.set i (FamTask.emitting ids) }
    | FamTask.emitting [] => some { s with fams := s.fams.set i FamTask.done, wgf := s.wgf - 1 }
    | FamTask.emitting (id :: rest) =>
      some { s with fams := s.fams.set i (FamTask.adding id rest), wgp := s.wgp + 1 }
    | FamTask.adding id rest =>
      if s.idClosed then none
      else if s.idBuf.length < idChanCap then
        some { s with fams := s.fams.set i (FamTask.emitting rest), idBuf := s.idBuf ++ [id] }
      else none
    | FamTask.done => none

/-- One atomic step of worker goroutine number `j`, or `none` if it is
blocked (empty open queue, or a send on a closed `plugChan`, which in Go
would panic) or has exited. -/
def workerStep (env : Env) (s : PState) (j : Nat) : Option PState :=
  match s.workers[j]? with
  | Option.none => none
  | Option.some w =>
    match w with
    | Worker.idle =>
      match s.idBuf with
      | id :: rest => some { s with workers := s.workers.set j (Worker.running id), idBuf := rest }
      | [] => if s.idClosed then some { s with workers := s.workers.set j Worker.exited } else none
    | Worker.running id =>
      match env.pluginDetails id with
      | Except.error _ => some { s with workers := s.workers.set j Worker.deccing }
      | Except.ok rec => some { s with workers := s.workers.set j (Worker.sending id rec) }
    | Worker.sending id rec =>
      if s.plugClosed then none
      else some { s with workers := s.workers.set j Worker.deccing,
                         emitted := s.emitted ++ [(id, rec)] }
    | Worker.deccing => some { s with workers := s.workers.set j Worker.idle, wgp := s.wgp - 1 }
    | Worker.exited => none

/-- One atomic step of the coordinator goroutine: the two `Wait` calls
return only when their counter is zero, and each `close` is its own step. -/
def coordStep (s : PState) : Option PState :=
  match s.coord with
  | Coord.waitFams => if s.wgf = 0 then some { s with coord := Coord.closeId } else none
  | Coord.closeId => some { s with coord := Coord.waitPlugs, idClosed := true }
  | Coord.waitPlugs => if s.wgp = 0 then some { s with coord := Coord.closePlug } else none
  | Coord.closePlug => some { s with coord := Coord.finished, plugClosed := true }
  | Coord.finished => none

/-- A scheduling action: which goroutine takes its next atomic step. -/
inductive Action where
  | fam (i : Nat)
  | worker (j : Nat)
  | coord
deriving DecidableEq, Repr

/-- The interleaving semantics: one step of the named goroutine. -/
def step (env : Env) (s : PState) : Action → Option PState
  | Action.fam i => famStep env s i
  | Action.worker j => workerStep env s j
  | Action.coord => coordStep s

/-- Run a finite schedule of actions; `none` if some action is not
enabled where scheduled. -/
def run (env : Env) (s : PState) : List Action → Option PState
  | [] => some s
  | a :: tr =>
    match step env s a with
    | Option.none => none
    | Option.some s' => run env s' tr

/-- `s` is reachable from the start state of an `AllPlugins` invocation
whose family listing returned `families`. -/
def ReachableFrom (env : Env) (families : List Int) (s : PState) : Prop :=
  ∃ tr, run env (initState families) tr = some s

/-- No goroutine has an enabled step: the run is over. -/
def Terminal (env : Env) (s : PState) : Prop :=
  ∀ a, step env s a = none

/-- Executable check for `Terminal` (only indices below the two list
lengths can have a step). -/
def terminalCheck (env : Env) (s : PState) : Bool :=
  ((List.range s.fams.length).all fun i => (famStep env s i).isNone) &&
  ((List.range s.workers.length).all fun j => (workerStep env s j).isNone) &&
  (coordStep s).isNone

/-- `n.AllPlugins()` itself (src/nessie.go:594-645): fetch the family list
synchronously; on failure return the error and no channel; on success
spawn the pipeline and return at once.  The returned `PState` is the
pipeline's start state, standing for the returned live channel. -/
def AllPlugins (env : Env) : Except String PState :=
  match env.pluginFamilies with
  | Except.error e => Except.error e
  | Except.ok families => Except.ok (initState families)

/-- `true` when the `n.PluginDetails(id)` call succeeds. -/
def detOk (env : Env) (id : Int) : Bool :=
  match env.pluginDetails id with
  | Except.ok _ => true
  | Except.error _ => false

/-- The plugin IDs of `ids` whose detail fetch succeeds. -/
def successIds (env : Env) (ids : List Int) : List Int :=
  ids.filter fun id => detOk env id

/-- The plugin IDs family `famID` contributes to the output: none if its
`FamilyDetails` fetch fails, otherwise its listed IDs whose own
`PluginDetails` fetch succeeds. -/
def famExpected (env : Env) (famID : Int) : List Int :=
  match env.familyDetails famID with
  | Except.error _ => []
  | Except.ok ids => successIds env ids

/-- All plugin IDs the pipeline is expected to emit for a family list. -/
def expectedIds (env : Env) (families : List Int) : List Int :=
  (families.map (famExpected env)).flatten

/-- All plugin IDs listed across all families (no filtering). -/
def listedIds (env : Env) (families : List Int) : List Int :=
  (families.map fun famID =>
    match env.familyDetails famID with
    | Except.error _ => []
    | Except.ok ids => ids).flatten

/-- The plugin IDs a family goroutine in state `t` will still cause to be
emitted. -/
def famPending (env : Env) : FamTask → List Int
  | FamTask.start famID => famExpected env famID
  | FamTask.emitting pending => successIds env pending
  | FamTask.adding id rest => successIds env (id :: rest)
  | FamTask.done => []

/-- The plugin IDs a worker in state `w` will still emit. -/
def workerPending (env : Env) : Worker → List Int
  | Worker.idle => []
  | Worker.running id => successIds env [id]
  | Worker.sending id _ => [id]
  | Worker.deccing => []
  | Worker.exited => []

/-- Multiset of the plugin IDs emitted so far. -/
def emisM (s : PState) : Multiset Int :=
  (s.emitted.map Prod.fst : List Int)

/-- Multiset union of `f` over a list. -/
def mapJoinM {α : Type} (f : α → List Int) (l : List α) : Multiset Int :=
  ((l.map f).flatten : List Int)

/-- Multiset of all plugin IDs still on their way to the output. -/
def futureM (env : Env) (s : PState) : Multiset Int :=
  mapJoinM (famPending env) s.fams + (successIds env s.idBuf : List Int)
    + mapJoinM (workerPending env) s.workers

/-- `true` on a family goroutine that has exited. -/
def FamTask.isDone : FamTask → Bool
  | FamTask.done => true
  | _ => false

/-- `true` on a family goroutine between `wgp.Add(1)` and the send. -/
def FamTask.isAdding : FamTask → Bool
  | FamTask.adding _ _ => true
  | _ => false

/-- `true` on a worker holding a dequeued plugin ID it has not yet
accounted for with `wgp.Done()`. -/
def Worker.isBusy : Worker → Bool
  | Worker.running _ => true
  | Worker.sending _ _ => true
  | Worker.deccing => true
  | _ => false

/-- `true` on a worker whose `n.PluginDetails` call is in flight. -/
def Worker.inFlight : Worker → Bool
  | Worker.running _ => true
  | _ => false

/-! ## Bookkeeping lemmas about `countP`, `mapJoinM` and `successIds` -/

theorem countP_set {α : Type} (p : α → Bool) :
    ∀ (l : List α) (i : Nat) (x t : α), l[i]? = some t →
      (l.set i x).countP p + (if p t then 1 else 0)
        = l.countP p + (if p x then 1 else 0)
  | [], i, x, t, h => by simp at h
  | a :: l, 0, x, t, h => by
    simp at h
    subst h
    simp [List.countP_cons]
    omega
  | a :: l, i + 1, x, t, h => by
    have ih := countP_set p l i x t (by simpa using h)
    simp only [List.set, List.countP_cons]
    omega

theorem mapJoinM_nil {α : Type} (f : α → List Int) : mapJoinM f ([] : List α) = 0 := rfl

theorem mapJoinM_cons {α : Type} (f : α → List Int) (a : α) (l : List α) :
    mapJoinM f (a :: l) = (f a : List Int) + mapJoinM f l := by
  simp [mapJoinM]

theorem mapJoinM_set {α : Type} (f : α → List Int) :
    ∀ (l : List α) (i : Nat) (x t : α), l[i]? = some t →
      mapJoinM f (l.set i x) + (f t : List Int)
        = mapJoinM f l + (f x : List Int)
  | [], i, x, t, h => by simp at h
  | a :: l, 0, x, t, h => by
    simp at h
    subst h
    simp [mapJoinM_cons]
    abel
  | a :: l, i + 1, x, t, h => by
    have ih := mapJoinM_set f l i x t (by simpa using h)
    simp only [List.set, mapJoinM_cons]
    calc (f a : Multiset Int) + mapJoinM f (l.set i x) + (f t : List Int)
        = (f a : Multiset Int) + (mapJoinM f (l.set i x) + (f t : List Int)) := by abel
      _ = (f a : Multiset Int) + (mapJoinM f l + (f x : List Int)) := by rw [ih]
      _ = (f a : Multiset Int) + mapJoinM f l + (f x : List Int) := by abel

theorem mapJoinM_eq_zero {α : Type} (f : α → List Int) (l : List α)
    (h : ∀ a ∈ l, f a = []) : mapJoinM f l = 0 := by
  induction l with
  | nil => rfl
  | cons a l ih =>
    rw [mapJoinM_cons, h a (by simp), ih fun b hb => h b (by simp [hb])]
    rfl

theorem successIds_append (env : Env) (l m : List Int) :
    successIds env (l ++ m) = successIds env l ++ successIds env m := by
  simp [successIds, List.filter_append]

theorem successIds_cons_m (env : Env) (id : Int) (rest : List Int) :
    (successIds env (id :: rest) : Multiset Int)
      = (successIds env [id] : List Int) + (successIds env rest : List Int) := by
  simp only [successIds, List.filter_cons]
  by_cases h : detOk env id <;> simp [h]

theorem successIds_single_err (env : Env) (id : Int) (h : detOk env id = false) :
    successIds env [id] = [] := by
  simp [successIds, List.filter_cons, h]

theorem successIds_single_ok (env : Env) (id : Int) (h : detOk env id = true) :
    successIds env [id] = [id] := by
  simp [successIds, List.filter_cons, h]

@[simp] theorem FamTask.isDone_start (f : Int) : (FamTask.start f).isDone = false := rfl
@[simp] theorem FamTask.isDone_emitting (l : List Int) : (FamTask.emitting l).isDone = false := rfl
@[simp] theorem FamTask.isDone_adding (id : Int) (l : List Int) : (FamTask.adding id l).isDone = false := rfl
@[simp] theorem FamTask.isDone_done : FamTask.done.isDone = true := rfl
@[simp] theorem FamTask.isAdding_start (f : Int) : (FamTask.start f).isAdding = false := rfl
@[simp] theorem FamTask.isAdding_emitting (l : List Int) : (FamTask.emitting l).isAdding = false := rfl
@[simp] theorem FamTask.isAdding_adding (id : Int) (l : List Int) : (FamTask.adding id l).isAdding = true := rfl
@[simp] theorem FamTask.isAdding_done : FamTask.done.isAdding = false := rfl
@[simp] theorem Worker.isBusy_idle : Worker.idle.isBusy = false := rfl
@[simp] theorem Worker.isBusy_running (id : Int) : (Worker.running id).isBusy = true := rfl
@[simp] theorem Worker.isBusy_sending (id : Int) (r : PluginDetails) : (Worker.sending id r).isBusy = true := rfl
@[simp] theorem Worker.isBusy_deccing : Worker.deccing.isBusy = true := rfl
@[simp] theorem Worker.isBusy_exited : Worker.exited.isBusy = false := rfl
@[simp] theorem famPending_start (env : Env) (f : Int) :
    famPending env (FamTask.start f) = famExpected env f := rfl
@[simp] theorem famPending_emitting (env : Env) (l : List Int) :
    famPending env (FamTask.emitting l) = successIds env l := rfl
@[simp] theorem famPending_adding (env : Env) (id : Int) (l : List Int) :
    famPending env (FamTask.adding id l) = successIds env (id :: l) := rfl
@[simp] theorem famPending_done (env : Env) : famPending env FamTask.done = [] := rfl
@[simp] theorem workerPending_idle (env : Env) : workerPending env Worker.idle = [] := rfl
@[simp] theorem workerPending_running (env : Env) (id : Int) :
    workerPending env (Worker.running id) = successIds env [id] := rfl
@[simp] theorem workerPending_sending (env : Env) (id : Int) (r : PluginDetails) :
    workerPending env (Worker.sending id r) = [id] := rfl
@[simp] theorem workerPending_deccing (env : Env) : workerPending env Worker.deccing = [] := rfl
@[simp] theorem workerPending_exited (env : Env) : workerPending env Worker.exited = [] := rfl

/-! ## The pipeline invariant -/

/-- The invariant every reachable state of the pipeline satisfies, for an
invocation whose family listing returned `fams0`:
the worker pool has its fixed size; `wgf` counts the family goroutines
that have not exited; `wgp` counts exactly the plugin IDs that are past
their `wgp.Add(1)` and not yet past their `wgp.Done()` (split between a
fan-out goroutine about to send, the `idChan` buffer, and a busy worker);
the two closed flags match the coordinator's progress; the waits have
returned only with their counter at zero; a worker exits only once
`idChan` is closed and drained; and the IDs emitted so far plus the IDs
still in the pipeline are exactly the expected output. -/
structure Inv (env : Env) (fams0 : List Int) (s : PState) : Prop where
  wlen : s.workers.length = numWorkers
  hwgf : s.wgf = s.fams.countP fun t => !FamTask.isDone t
  hwgp : s.wgp = s.fams.countP FamTask.isAdding + s.idBuf.length
      + s.workers.countP Worker.isBusy
  hidc : s.idClosed = true ↔
      (s.coord = Coord.waitPlugs ∨ s.coord = Coord.closePlug ∨ s.coord = Coord.finished)
  hplc : s.plugClosed = true ↔ s.coord = Coord.finished
  hcf : s.coord ≠ Coord.waitFams → s.wgf = 0
  hcp : s.coord = Coord.closePlug ∨ s.coord = Coord.finished → s.wgp = 0
  hex : ∀ w ∈ s.workers, w = Worker.exited → s.idClosed = true ∧ s.idBuf = []
  hmul : emisM s + futureM env s = (expectedIds env fams0 : List Int)

theorem inv_init (env : Env) (fams0 : List Int) : Inv env fams0 (initState fams0) := by
  constructor
  case wlen => simp [initState]
  case hwgf =>
    simp only [initState]
    rw [List.countP_eq_length.mpr]
    · simp
    · intro t ht
      rcases List.mem_map.mp ht with ⟨f, _, rfl⟩
      rfl
  case hwgp =>
    simp only [initState]
    rw [List.countP_eq_zero.mpr, List.countP_eq_zero.mpr]
    · simp
    · intro w hw
      rw [List.eq_of_mem_replicate hw]
      simp [Worker.isBusy]
    · intro t ht
      rcases List.mem_map.mp ht with ⟨f, _, rfl⟩
      simp [FamTask.isAdding]
  case hidc => simp [initState]
  case hplc => simp [initState]
  case hcf => intro h; exact absurd rfl h
  case hcp => intro h; rcases h with h | h <;> simp [initState] at h
  case hex =>
    intro w hw hex
    simp only [initState] at hw
    rw [List.eq_of_mem_replicate hw] at hex
    cases hex
  case hmul =>
    simp only [initState, emisM, futureM]
    rw [mapJoinM_eq_zero (workerPending env) _
      (fun w hw => by rw [List.eq_of_mem_replicate hw]; rfl)]
    have : mapJoinM (famPending env) (fams0.map FamTask.start)
        = (expectedIds env fams0 : List Int) := by
      simp [mapJoinM, List.map_map, expectedIds]
      rfl
    rw [this]
    simp [successIds]

theorem coe_append_m (l m : List Int) : ((l ++ m : List Int) : Multiset Int)
    = (l : Multiset Int) + (m : Multiset Int) := by
  simp

theorem inv_famStep {env : Env} {fams0 : List Int} {s s' : PState} {i : Nat}
    (hI : Inv env fams0 s) (h : famStep env s i = some s') : Inv env fams0 s' := by
  have hg0 : ∃ t, s.fams[i]? = some t := by
    cases hg : s.fams[i]?
    · simp [famStep, hg] at h
    · exact ⟨_, rfl⟩
  obtain ⟨t, hg⟩ := hg0
  have hmem : t ∈ s.fams := List.getElem?_mem hg
  cases t with
  | start famID =>
    cases hfd : env.familyDetails famID with
    | error e =>
      have hs' : { s with fams := s.fams.set i FamTask.done, wgf := s.wgf - 1 } = s' := by
        simpa [famStep, hg, hfd] using h
      subst hs'
      have hcd := countP_set (fun t => !FamTask.isDone t) s.fams i FamTask.done _ hg
      have hca := countP_set FamTask.isAdding s.fams i FamTask.done _ hg
      simp at hcd hca
      constructor
      case wlen => exact hI.wlen
      case hwgf => have := hI.hwgf; dsimp only; omega
      case hwgp => have := hI.hwgp; dsimp only; omega
      case hidc => exact hI.hidc
      case hplc => exact hI.hplc
      case hcf => intro hc; have := hI.hcf hc; dsimp only; omega
      case hcp => exact hI.hcp
      case hex => exact hI.hex
      case hmul =>
        have hmj := mapJoinM_set (famPending env) s.fams i FamTask.done _ hg
        simp only [famPending_start, famPending_done, famExpected, hfd] at hmj
        have hX := hI.hmul
        dsimp only [emisM, futureM] at hX ⊢
        refine Multiset.ext.mpr fun x => ?_
        have c1 := congrArg (Multiset.count x) hmj
        have c2 := congrArg (Multiset.count x) hX
        simp only [Multiset.count_add, Multiset.coe_nil, Multiset.count_zero] at c1 c2 ⊢
        omega
    | ok ids =>
      have hs' : { s with fams := s.fams.set i (FamTask.emitting ids) } = s' := by
        simpa [famStep, hg, hfd] using h
      subst hs'
      have hcd := countP_set (fun t => !FamTask.isDone t) s.fams i (FamTask.emitting ids) _ hg
      have hca := countP_set FamTask.isAdding s.fams i (FamTask.emitting ids) _ hg
      simp at hcd hca
      constructor
      case wlen => exact hI.wlen
      case hwgf => have := hI.hwgf; dsimp only; omega
      case hwgp => have := hI.hwgp; dsimp only; omega
      case hidc => exact hI.hidc
      case hplc => exact hI.hplc
      case hcf => intro hc; exact hI.hcf hc
      case hcp => exact hI.hcp
      case hex => exact hI.hex
      case hmul =>
        have hmj := mapJoinM_set (famPending env) s.fams i (FamTask.emitting ids) _ hg
        simp only [famPending_start, famPending_emitting, famExpected, hfd] at hmj
        have hX := hI.hmul
        dsimp only [emisM, futureM] at hX ⊢
        refine Multiset.ext.mpr fun x => ?_
        have c1 := congrArg (Multiset.count x) hmj
        have c2 := congrArg (Multiset.count x) hX
        simp only [Multiset.count_add] at c1 c2 ⊢
        omega
  | emitting pending =>
    cases pending with
    | nil =>
      have hs' : { s with fams := s.fams.set i FamTask.done, wgf := s.wgf - 1 } = s' := by
        simpa [famStep, hg] using h
      subst hs'
      have hcd := countP_set (fun t => !FamTask.isDone t) s.fams i FamTask.done _ hg
      have hca := countP_set FamTask.isAdding s.fams i FamTask.done _ hg
      simp at hcd hca
      constructor
      case wlen => exact hI.wlen
      case hwgf => have := hI.hwgf; dsimp only; omega
      case hwgp => have := hI.hwgp; dsimp only; omega
      case hidc => exact hI.hidc
      case hplc => exact hI.hplc
      case hcf => intro hc; have := hI.hcf hc; dsimp only; omega
      case hcp => exact hI.hcp
      case hex => exact hI.hex
      case hmul =>
        have hmj := mapJoinM_set (famPending env) s.fams i FamTask.done _ hg
        simp only [famPending_emitting, famPending_done, successIds, List.filter_nil] at hmj
        have hX := hI.hmul
        dsimp only [emisM, futureM] at hX ⊢
        refine Multiset.ext.mpr fun x => ?_
        have c1 := congrArg (Multiset.count x) hmj
        have c2 := congrArg (Multiset.count x) hX
        simp only [Multiset.count_add, Multiset.coe_nil, Multiset.count_zero] at c1 c2 ⊢
        omega
    | cons id rest =>
      have hs' : { s with fams := s.fams.set i (FamTask.adding id rest), wgp := s.wgp + 1 } = s' := by
        simpa [famStep, hg] using h
      subst hs'
      have hcd := countP_set (fun t => !FamTask.isDone t) s.fams i (FamTask.adding id rest) _ hg
      have hca := countP_set FamTask.isAdding s.fams i (FamTask.adding id rest) _ hg
      simp at hcd hca
      have hnd : s.wgf ≠ 0 := by
        have := hI.hwgf
        have hpos : 0 < s.fams.countP fun t => !FamTask.isDone t :=
          List.countP_pos_iff.mpr ⟨_, hmem, rfl⟩
        omega
      constructor
      case wlen => exact hI.wlen
      case hwgf => have := hI.hwgf; dsimp only; omega
      case hwgp => have := hI.hwgp; dsimp only; omega
      case hidc => exact hI.hidc
      case hplc => exact hI.hplc
      case hcf => intro hc; exact hI.hcf hc
      case hcp =>
        intro hc
        have hc' : s.coord ≠ Coord.waitFams := by
          rcases hc with hc | hc <;> (dsimp only at hc; rw [hc]; intro hh; cases hh)
        exact absurd (hI.hcf hc') hnd
      case hex => exact hI.hex
      case hmul =>
        have hmj := mapJoinM_set (famPending env) s.fams i (FamTask.adding id rest) _ hg
        simp only [famPending_emitting, famPending_adding] at hmj
        have hX := hI.hmul
        dsimp only [emisM, futureM] at hX ⊢
        refine Multiset.ext.mpr fun x => ?_
        have c1 := congrArg (Multiset.count x) hmj
        have c2 := congrArg (Multiset.count x) hX
        simp only [Multiset.count_add] at c1 c2 ⊢
        omega
  | adding id rest =>
    have hguard : s.idClosed = false ∧ s.idBuf.length < idChanCap := by
      by_cases h1 : s.idClosed
      · simp [famStep, hg, h1] at h
      · by_cases h2 : s.idBuf.length < idChanCap
        · exact ⟨by simp [h1], h2⟩
        · simp [famStep, hg, h1, h2] at h
    have hs' : { s with fams := s.fams.set i (FamTask.emitting rest), idBuf := s.idBuf ++ [id] } = s' := by
      simpa [famStep, hg, hguard.1, hguard.2] using h
    subst hs'
    have hcd := countP_set (fun t => !FamTask.isDone t) s.fams i (FamTask.emitting rest) _ hg
    have hca := countP_set FamTask.isAdding s.fams i (FamTask.emitting rest) _ hg
    simp at hcd hca
    constructor
    case wlen => exact hI.wlen
    case hwgf => have := hI.hwgf; dsimp only; omega
    case hwgp =>
      have := hI.hwgp
      dsimp only
      simp only [List.length_append, List.length_cons, List.length_nil]
      omega
    case hidc => exact hI.hidc
    case hplc => exact hI.hplc
    case hcf => intro hc; exact hI.hcf hc
    case hcp => exact hI.hcp
    case hex =>
      intro w hw hwex
      dsimp only at hw
      have := (hI.hex w hw hwex).1
      rw [this] at hguard
      exact absurd hguard.1 (by simp)
    case hmul =>
      have hmj := mapJoinM_set (famPending env) s.fams i (FamTask.emitting rest) _ hg
      simp only [famPending_emitting, famPending_adding] at hmj
      have hbuf : ((successIds env (s.idBuf ++ [id]) : List Int) : Multiset Int)
          = ((successIds env s.idBuf : List Int) : Multiset Int)
            + ((successIds env [id] : List Int) : Multiset Int) := by
        rw [successIds_append]
        exact coe_append_m _ _
      have hsplit := successIds_cons_m env id rest
      have hX := hI.hmul
      dsimp only [emisM, futureM] at hX ⊢
      refine Multiset.ext.mpr fun x => ?_
      have c1 := congrArg (Multiset.count x) hmj
      have c2 := congrArg (Multiset.count x) hX
      have c3 := congrArg (Multiset.count x) hsplit
      have c4 := congrArg (Multiset.count x) hbuf
      simp only [Multiset.count_add] at c1 c2 c3 c4 ⊢
      omega
  | done => simp [famStep, hg] at h

theorem inv_workerStep {env : Env} {fams0 : List Int} {s s' : PState} {j : Nat}
    (hI : Inv env fams0 s) (h : workerStep env s j = some s') : Inv env fams0 s' := by
  have hg0 : ∃ w, s.workers[j]? = some w := by
    cases hg : s.workers[j]?
    · simp [workerStep, hg] at h
    · exact ⟨_, rfl⟩
  obtain ⟨w, hg⟩ := hg0
  have hmem : w ∈ s.workers := List.getElem?_mem hg
  cases w with
  | idle =>
    cases hbuf : s.idBuf with
    | cons id rest =>
      have hs' : { s with workers := s.workers.set j (Worker.running id), idBuf := rest } = s' := by
        simpa [workerStep, hg, hbuf] using h
      subst hs'
      have hcb := countP_set Worker.isBusy s.workers j (Worker.running id) _ hg
      simp at hcb
      constructor
      case wlen => dsimp only; rw [List.length_set]; exact hI.wlen
      case hwgf => exact hI.hwgf
      case hwgp =>
        have := hI.hwgp
        rw [hbuf] at this
        dsimp only
        simp only [List.length_cons] at this
        omega
      case hidc => exact hI.hidc
      case hplc => exact hI.hplc
      case hcf => intro hc; exact hI.hcf hc
      case hcp => exact hI.hcp
      case hex =>
        intro w' hw' hwex
        dsimp only at hw'
        rcases List.mem_or_eq_of_mem_set hw' with hmem' | rfl
        · have := (hI.hex w' hmem' hwex).2
          rw [hbuf] at this
          cases this
        · cases hwex
      case hmul =>
        have hmj := mapJoinM_set (workerPending env) s.workers j (Worker.running id) _ hg
        simp only [workerPending_idle, workerPending_running] at hmj
        have hsplit := successIds_cons_m env id rest
        have hX := hI.hmul
        dsimp only [emisM, futureM] at hX
        rw [hbuf] at hX
        dsimp only [emisM, futureM]
        refine Multiset.ext.mpr fun x => ?_
        have c1 := congrArg (Multiset.count x) hmj
        have c2 := congrArg (Multiset.count x) hX
        have c3 := congrArg (Multiset.count x) hsplit
        simp only [Multiset.count_add, Multiset.coe_nil, Multiset.count_zero] at c1 c2 c3 ⊢
        omega
    | nil =>
      have hcl : s.idClosed = true := by
        by_cases h1 : s.idClosed
        · exact h1
        · simp [workerStep, hg, hbuf, h1] at h
      have hs' : { s with workers := s.workers.set j Worker.exited } = s' := by
        simpa [workerStep, hg, hbuf, hcl] using h
      subst hs'
      have hcb := countP_set Worker.isBusy s.workers j Worker.exited _ hg
      simp at hcb
      constructor
      case wlen => dsimp only; rw [List.length_set]; exact hI.wlen
      case hwgf => exact hI.hwgf
      case hwgp => have := hI.hwgp; dsimp only; omega
      case hidc => exact hI.hidc
      case hplc => exact hI.hplc
      case hcf => intro hc; exact hI.hcf hc
      case hcp => exact hI.hcp
      case hex =>
        intro w' hw' hwex
        dsimp only at hw'
        rcases List.mem_or_eq_of_mem_set hw' with hmem' | rfl
        · exact hI.hex w' hmem' hwex
        · exact ⟨hcl, hbuf⟩
      case hmul =>
        have hmj := mapJoinM_set (workerPending env) s.workers j Worker.exited _ hg
        simp only [workerPending_idle, workerPending_exited] at hmj
        have hX := hI.hmul
        dsimp only [emisM, futureM] at hX ⊢
        refine Multiset.ext.mpr fun x => ?_
        have c1 := congrArg (Multiset.count x) hmj
        have c2 := congrArg (Multiset.count x) hX
        simp only [Multiset.count_add, Multiset.coe_nil, Multiset.count_zero] at c1 c2 ⊢
        omega
  | running id =>
    cases hpd : env.pluginDetails id with
    | error e =>
      have hs' : { s with workers := s.workers.set j Worker.deccing } = s' := by
        simpa [workerStep, hg, hpd] using h
      subst hs'
      have hcb := countP_set Worker.isBusy s.workers j Worker.deccing _ hg
      simp at hcb
      constructor
      case wlen => dsimp only; rw [List.length_set]; exact hI.wlen
      case hwgf => exact hI.hwgf
      case hwgp => have := hI.hwgp; dsimp only; omega
      case hidc => exact hI.hidc
      case hplc => exact hI.hplc
      case hcf => intro hc; exact hI.hcf hc
      case hcp => exact hI.hcp
      case hex =>
        intro w' hw' hwex
        dsimp only at hw'
        rcases List.mem_or_eq_of_mem_set hw' with hmem' | rfl
        · exact hI.hex w' hmem' hwex
        · cases hwex
      case hmul =>
        have hmj := mapJoinM_set (workerPending env) s.workers j Worker.deccing _ hg
        have hok : detOk env id = false := by simp [detOk, hpd]
        simp only [workerPending_running, workerPending_deccing,
          successIds_single_err env id hok] at hmj
        have hX := hI.hmul
        dsimp only [emisM, futureM] at hX ⊢
        refine Multiset.ext.mpr fun x => ?_
        have c1 := congrArg (Multiset.count x) hmj
        have c2 := congrArg (Multiset.count x) hX
        simp only [Multiset.count_add, Multiset.coe_nil, Multiset.count_zero] at c1 c2 ⊢
        omega
    | ok rec =>
      have hs' : { s with workers := s.workers.set j (Worker.sending id rec) } = s' := by
        simpa [workerStep, hg, hpd] using h
      subst hs'
      have hcb := countP_set Worker.isBusy s.workers j (Worker.sending id rec) _ hg
      simp at hcb
      constructor
      case wlen => dsimp only; rw [List.length_set]; exact hI.wlen
      case hwgf => exact hI.hwgf
      case hwgp => have := hI.hwgp; dsimp only; omega
      case hidc => exact hI.hidc
      case hplc => exact hI.hplc
      case hcf => intro hc; exact hI.hcf hc
      case hcp => exact hI.hcp
      case hex =>
        intro w' hw' hwex
        dsimp only at hw'
        rcases List.mem_or_eq_of_mem_set hw' with hmem' | rfl
        · exact hI.hex w' hmem' hwex
        · cases hwex
      case hmul =>
        have hmj := mapJoinM_set (workerPending env) s.workers j (Worker.sending id rec) _ hg
        have hok : detOk env id = true := by simp [detOk, hpd]
        simp only [workerPending_running, workerPending_sending,
          successIds_single_ok env id hok] at hmj
        have hX := hI.hmul
        dsimp only [emisM, futureM] at hX ⊢
        refine Multiset.ext.mpr fun x => ?_
        have c1 := congrArg (Multiset.count x) hmj
        have c2 := congrArg (Multiset.count x) hX
        simp only [Multiset.count_add] at c1 c2 ⊢
        omega
  | sending id rec =>
    have hop : s.plugClosed = false := by
      by_cases h1 : s.plugClosed
      · simp [workerStep, hg, h1] at h
      · simp [h1]
    have hs' : { s with workers := s.workers.set j Worker.deccing, emitted := s.emitted ++ [(id, rec)] } = s' := by
      simpa [workerStep, hg, hop] using h
    subst hs'
    have hcb := countP_set Worker.isBusy s.workers j Worker.deccing _ hg
    simp at hcb
    constructor
    case wlen => dsimp only; rw [List.length_set]; exact hI.wlen
    case hwgf => exact hI.hwgf
    case hwgp => have := hI.hwgp; dsimp only; omega
    case hidc => exact hI.hidc
    case hplc => exact hI.hplc
    case hcf => intro hc; exact hI.hcf hc
    case hcp => exact hI.hcp
    case hex =>
      intro w' hw' hwex
      dsimp only at hw'
      rcases List.mem_or_eq_of_mem_set hw' with hmem' | rfl
      · exact hI.hex w' hmem' hwex
      · cases hwex
    case hmul =>
      have hmj := mapJoinM_set (workerPending env) s.workers j Worker.deccing _ hg
      simp only [workerPending_sending, workerPending_deccing] at hmj
      have hX := hI.hmul
      dsimp only [emisM, futureM] at hX ⊢
      refine Multiset.ext.mpr fun x => ?_
      have c1 := congrArg (Multiset.count x) hmj
      have c2 := congrArg (Multiset.count x) hX
      have hemit : ((List.map Prod.fst (s.emitted ++ [(id, rec)]) : List Int) : Multiset Int)
          = ((List.map Prod.fst s.emitted : List Int) : Multiset Int) + (([id] : List Int) : Multiset Int) := by
        rw [List.map_append]
        exact coe_append_m _ _
      have c3 := congrArg (Multiset.count x) hemit
      simp only [Multiset.count_add, Multiset.coe_nil, Multiset.count_zero] at c1 c2 c3 ⊢
      omega
  | deccing =>
    have hs' : { s with workers := s.workers.set j Worker.idle, wgp := s.wgp - 1 } = s' := by
      simpa [workerStep, hg] using h
    subst hs'
    have hcb := countP_set Worker.isBusy s.workers j Worker.idle _ hg
    simp at hcb
    have hpos : 0 < s.workers.countP Worker.isBusy :=
      List.countP_pos_iff.mpr ⟨_, hmem, rfl⟩
    constructor
    case wlen => dsimp only; rw [List.length_set]; exact hI.wlen
    case hwgf => exact hI.hwgf
    case hwgp => have := hI.hwgp; dsimp only; omega
    case hidc => exact hI.hidc
    case hplc => exact hI.hplc
    case hcf => intro hc; exact hI.hcf hc
    case hcp => intro hc; have := hI.hcp hc; dsimp only; omega
    case hex =>
      intro w' hw' hwex
      dsimp only at hw'
      rcases List.mem_or_eq_of_mem_set hw' with hmem' | rfl
      · exact hI.hex w' hmem' hwex
      · cases hwex
    case hmul =>
      have hmj := mapJoinM_set (workerPending env) s.workers j Worker.idle _ hg
      simp only [workerPending_deccing, workerPending_idle] at hmj
      have hX := hI.hmul
      dsimp only [emisM, futureM] at hX ⊢
      refine Multiset.ext.mpr fun x => ?_
      have c1 := congrArg (Multiset.count x) hmj
      have c2 := congrArg (Multiset.count x) hX
      simp only [Multiset.count_add, Multiset.coe_nil, Multiset.count_zero] at c1 c2 ⊢
      omega
  | exited => simp [workerStep, hg] at h

theorem inv_coordStep {env : Env} {fams0 : List Int} {s s' : PState}
    (hI : Inv env fams0 s) (h : coordStep s = some s') : Inv env fams0 s' := by
  cases hco : s.coord with
  | waitFams =>
    have hz : s.wgf = 0 := by
      by_cases h1 : s.wgf = 0
      · exact h1
      · simp [coordStep, hco, h1] at h
    have hs' : { s with coord := Coord.closeId } = s' := by
      simpa [coordStep, hco, hz] using h
    subst hs'
    have hic : s.idClosed = false := by
      have := hI.hidc
      rw [hco] at this
      simp at this
      exact this
    have hpc : s.plugClosed = false := by
      have := hI.hplc
      rw [hco] at this
      simp at this
      exact this
    constructor
    case wlen => exact hI.wlen
    case hwgf => exact hI.hwgf
    case hwgp => exact hI.hwgp
    case hidc => dsimp only; simp [hic]
    case hplc => dsimp only; simp [hpc]
    case hcf => intro _; exact hz
    case hcp =>
      intro hc
      rcases hc with hc | hc <;> (dsimp only at hc; cases hc)
    case hex => exact hI.hex
    case hmul => exact hI.hmul
  | closeId =>
    have hs' : { s with coord := Coord.waitPlugs, idClosed := true } = s' := by
      simpa [coordStep, hco] using h
    subst hs'
    have hic : s.idClosed = false := by
      have := hI.hidc
      rw [hco] at this
      simp at this
      exact this
    have hpc : s.plugClosed = false := by
      have := hI.hplc
      rw [hco] at this
      simp at this
      exact this
    constructor
    case wlen => exact hI.wlen
    case hwgf => exact hI.hwgf
    case hwgp => exact hI.hwgp
    case hidc => dsimp only; simp
    case hplc => dsimp only; simp [hpc]
    case hcf =>
      intro _
      exact hI.hcf (by rw [hco]; intro hh; cases hh)
    case hcp =>
      intro hc
      rcases hc with hc | hc <;> (dsimp only at hc; cases hc)
    case hex =>
      intro w' hw' hwex
      have hold := hI.hex w' hw' hwex
      rw [hic] at hold
      cases hold.1
    case hmul => exact hI.hmul
  | waitPlugs =>
    have hz : s.wgp = 0 := by
      by_cases h1 : s.wgp = 0
      · exact h1
      · simp [coordStep, hco, h1] at h
    have hs' : { s with coord := Coord.closePlug } = s' := by
      simpa [coordStep, hco, hz] using h
    subst hs'
    have hic : s.idClosed = true := hI.hidc.mpr (Or.inl hco)
    have hpc : s.plugClosed = false := by
      have := hI.hplc
      rw [hco] at this
      simp at this
      exact this
    constructor
    case wlen => exact hI.wlen
    case hwgf => exact hI.hwgf
    case hwgp => exact hI.hwgp
    case hidc => dsimp only; simp [hic]
    case hplc => dsimp only; simp [hpc]
    case hcf =>
      intro _
      exact hI.hcf (by rw [hco]; intro hh; cases hh)
    case hcp => intro _; exact hz
    case hex =>
      intro w' hw' hwex
      exact hI.hex w' hw' hwex
    case hmul => exact hI.hmul
  | closePlug =>
    have hs' : { s with coord := Coord.finished, plugClosed := true } = s' := by
      simpa [coordStep, hco] using h
    subst hs'
    have hic : s.idClosed = true := hI.hidc.mpr (Or.inr (Or.inl hco))
    constructor
    case wlen => exact hI.wlen
    case hwgf => exact hI.hwgf
    case hwgp => exact hI.hwgp
    case hidc => dsimp only; simp [hic]
    case hplc => dsimp only; simp
    case hcf =>
      intro _
      exact hI.hcf (by rw [hco]; intro hh; cases hh)
    case hcp =>
      intro _
      exact hI.hcp (Or.inl hco)
    case hex =>
      intro w' hw' hwex
      exact hI.hex w' hw' hwex
    case hmul => exact hI.hmul
  | finished => simp [coordStep, hco] at h

theorem inv_step {env : Env} {fams0 : List Int} {s s' : PState} {a : Action}
    (hI : Inv env fams0 s) (h : step env s a = some s') : Inv env fams0 s' := by
  cases a with
  | fam i => exact inv_famStep hI h
  | worker j => exact inv_workerStep hI h
  | coord => exact inv_coordStep hI h

theorem inv_run {env : Env} {fams0 : List Int} :
    ∀ (tr : List Action) (s s' : PState), Inv env fams0 s →
      run env s tr = some s' → Inv env fams0 s'
  | [], s, s', hI, h => by
    simp [run] at h
    rw [← h]
    exact hI
  | a :: tr, s, s', hI, h => by
    cases hst : step env s a with
    | none => simp [run, hst] at h
    | some s₁ =>
      simp only [run, hst] at h
      exact inv_run tr s₁ s' (inv_step hI hst) h

theorem inv_reachable {env : Env} {fams0 : List Int} {s : PState}
    (h : ReachableFrom env fams0 s) : Inv env fams0 s := by
  obtain ⟨tr, htr⟩ := h
  exact inv_run tr _ s (inv_init env fams0) htr

theorem mem_index {α : Type} {l : List α} {a : α} (h : a ∈ l) : ∃ i : Nat, l[i]? = some a := by
  rcases List.mem_iff_getElem.mp h with ⟨i, hi, he⟩
  exact ⟨i, by rw [List.getElem?_eq_getElem hi, he]⟩

/-- In a terminal state of the pipeline, no busy worker can exist: each of
its possible steps would be enabled. -/
theorem terminal_no_busy {env : Env} {fams0 : List Int} {s : PState}
    (hI : Inv env fams0 s) (ht : Terminal env s) (hnf : s.coord ≠ Coord.finished) :
    s.workers.countP Worker.isBusy = 0 := by
  by_contra hb
  have hpos : 0 < s.workers.countP Worker.isBusy := Nat.pos_of_ne_zero hb
  obtain ⟨w, hwmem, hwbusy⟩ := List.countP_pos_iff.mp hpos
  obtain ⟨j, hj⟩ := mem_index hwmem
  have hws := ht (Action.worker j)
  simp only [step] at hws
  have hpc : s.plugClosed = false := by
    cases hpcv : s.plugClosed
    · rfl
    · exact absurd (hI.hplc.mp hpcv) hnf
  cases w with
  | idle => cases hwbusy
  | running id =>
    cases hpd : env.pluginDetails id <;> simp [workerStep, hj, hpd] at hws
  | sending id rec => simp [workerStep, hj, hpc] at hws
  | deccing => simp [workerStep, hj] at hws
  | exited => cases hwbusy

/-- A reachable terminal state is fully drained: there is no deadlock.
Every family goroutine has exited, the `idChan` buffer is empty, every
worker has exited, the coordinator has closed both channels, and both
`WaitGroup` counters are zero. -/
theorem terminal_drained {env : Env} {fams0 : List Int} {s : PState}
    (hI : Inv env fams0 s) (ht : Terminal env s) :
    (∀ t ∈ s.fams, t = FamTask.done) ∧ s.idBuf = [] ∧ (∀ w ∈ s.workers, w = Worker.exited)
      ∧ s.coord = Coord.finished ∧ s.wgf = 0 ∧ s.wgp = 0 := by
  have hcoordNone := ht Action.coord
  simp only [step] at hcoordNone
  have hW0 : 0 < s.workers.length := by rw [hI.wlen]; decide
  have hfin : s.coord = Coord.finished := by
    cases hco : s.coord with
    | waitFams =>
      exfalso
      have hwgf : s.wgf ≠ 0 := by
        intro hz
        simp [coordStep, hco, hz] at hcoordNone
      have hic : s.idClosed = false := by
        cases hicv : s.idClosed
        · rfl
        · rcases hI.hidc.mp hicv with hc | hc | hc <;> (rw [hco] at hc; cases hc)
      have hpc : s.plugClosed = false := by
        cases hpcv : s.plugClosed
        · rfl
        · have hpl := hI.hplc
          rw [hco] at hpl
          cases hpl.mp hpcv
      have hpos : 0 < s.fams.countP fun t => !FamTask.isDone t := by
        have := hI.hwgf
        omega
      obtain ⟨t, htmem, htnd⟩ := List.countP_pos_iff.mp hpos
      obtain ⟨i, hi⟩ := mem_index htmem
      have hfs := ht (Action.fam i)
      simp only [step] at hfs
      have hbuf : idChanCap ≤ s.idBuf.length := by
        cases t with
        | start famID => cases hfd : env.familyDetails famID <;> simp [famStep, hi, hfd] at hfs
        | emitting pending => cases pending <;> simp [famStep, hi] at hfs
        | adding id rest =>
          by_contra hlen
          simp [famStep, hi, hic, Nat.lt_of_not_le hlen] at hfs
        | done => simp at htnd
      have hbne : s.idBuf ≠ [] := by
        intro hnil
        rw [hnil] at hbuf
        simp [idChanCap] at hbuf
      have hnb : s.workers.countP Worker.isBusy = 0 :=
        terminal_no_busy hI ht (by rw [hco]; intro hh; cases hh)
      obtain ⟨w0, hw0⟩ : ∃ w0, s.workers[0]? = some w0 :=
        ⟨s.workers.get ⟨0, hW0⟩, List.getElem?_eq_getElem hW0⟩
      have hw0mem : w0 ∈ s.workers := List.getElem?_mem hw0
      have hws := ht (Action.worker 0)
      simp only [step] at hws
      cases w0 with
      | idle =>
        cases hbv : s.idBuf with
        | nil => exact hbne hbv
        | cons id rest => simp [workerStep, hw0, hbv] at hws
      | running id =>
        exact List.countP_eq_zero.mp hnb _ hw0mem rfl
      | sending id rec =>
        exact List.countP_eq_zero.mp hnb _ hw0mem rfl
      | deccing =>
        exact List.countP_eq_zero.mp hnb _ hw0mem rfl
      | exited => exact hbne (hI.hex _ hw0mem rfl).2
    | closeId => simp [coordStep, hco] at hcoordNone
    | waitPlugs =>
      exfalso
      have hwgp : s.wgp ≠ 0 := by
        intro hz
        simp [coordStep, hco, hz] at hcoordNone
      have hwgf0 : s.wgf = 0 := hI.hcf (by rw [hco]; intro hh; cases hh)
      have hdone : ∀ t ∈ s.fams, t = FamTask.done := by
        intro t htm
        have hz : s.fams.countP (fun t => !FamTask.isDone t) = 0 := by
          have := hI.hwgf; omega
        have := List.countP_eq_zero.mp hz t htm
        cases t <;> simp at this <;> rfl
      have hadd0 : s.fams.countP FamTask.isAdding = 0 := by
        refine List.countP_eq_zero.mpr fun t htm => ?_
        rw [hdone t htm]
        simp
      have hnb : s.workers.countP Worker.isBusy = 0 :=
        terminal_no_busy hI ht (by rw [hco]; intro hh; cases hh)
      have hbne : s.idBuf ≠ [] := by
        intro hnil
        have := hI.hwgp
        rw [hnil, hadd0, hnb] at this
        simp at this
        exact hwgp this
      obtain ⟨w0, hw0⟩ : ∃ w0, s.workers[0]? = some w0 :=
        ⟨s.workers.get ⟨0, hW0⟩, List.getElem?_eq_getElem hW0⟩
      have hw0mem : w0 ∈ s.workers := List.getElem?_mem hw0
      have hws := ht (Action.worker 0)
      simp only [step] at hws
      cases w0 with
      | idle =>
        cases hbv : s.idBuf with
        | nil => exact hbne hbv
        | cons id rest => simp [workerStep, hw0, hbv] at hws
      | running id =>
        exact List.countP_eq_zero.mp hnb _ hw0mem rfl
      | sending id rec =>
        exact List.countP_eq_zero.mp hnb _ hw0mem rfl
      | deccing =>
        exact List.countP_eq_zero.mp hnb _ hw0mem rfl
      | exited => exact hbne (hI.hex _ hw0mem rfl).2
    | closePlug => simp [coordStep, hco] at hcoordNone
    | finished => rfl
  have hwgf0 : s.wgf = 0 := hI.hcf (by rw [hfin]; intro hh; cases hh)
  have hwgp0 : s.wgp = 0 := hI.hcp (Or.inr hfin)
  have hdone : ∀ t ∈ s.fams, t = FamTask.done := by
    intro t htm
    have hz : s.fams.countP (fun t => !FamTask.isDone t) = 0 := by
      have := hI.hwgf; omega
    have := List.countP_eq_zero.mp hz t htm
    cases t <;> simp at this <;> rfl
  have hnb : s.workers.countP Worker.isBusy = 0 := by
    have := hI.hwgp
    omega
  have hbuf0 : s.idBuf = [] := by
    have := hI.hwgp
    have hlen : s.idBuf.length = 0 := by omega
    exact List.length_eq_zero.mp hlen
  have hic : s.idClosed = true := hI.hidc.mpr (Or.inr (Or.inr hfin))
  have hexited : ∀ w ∈ s.workers, w = Worker.exited := by
    intro w hwmem
    obtain ⟨j, hj⟩ := mem_index hwmem
    have hws := ht (Action.worker j)
    simp only [step] at hws
    cases w with
    | idle => simp [workerStep, hj, hbuf0, hic] at hws
    | running id =>
      exact absurd rfl (List.countP_eq_zero.mp hnb _ hwmem)
    | sending id rec =>
      exact absurd rfl (List.countP_eq_zero.mp hnb _ hwmem)
    | deccing =>
      exact absurd rfl (List.countP_eq_zero.mp hnb _ hwmem)
    | exited => rfl
  exact ⟨hdone, hbuf0, hexited, hfin, hwgf0, hwgp0⟩

/-- In a drained state the pipeline holds no pending IDs. -/
theorem futureM_drained {env : Env} {s : PState}
    (hf : ∀ t ∈ s.fams, t = FamTask.done) (hb : s.idBuf = [])
    (hw : ∀ w ∈ s.workers, w = Worker.exited) : futureM env s = 0 := by
  unfold futureM
  rw [mapJoinM_eq_zero (famPending env) s.fams (fun t htm => by rw [hf t htm]; rfl)]
  rw [mapJoinM_eq_zero (workerPending env) s.workers (fun w hwm => by rw [hw w hwm]; rfl)]
  rw [hb]
  simp [successIds]

/-- Core counting theorem: the multiset of plugin IDs emitted in a reachable
state never exceeds the expected multiset, and equals it once the run is
over. -/
theorem emitted_eq_expected {env : Env} {fams0 : List Int} {s : PState}
    (hr : ReachableFrom env fams0 s) :
    emisM s ≤ (expectedIds env fams0 : List Int) ∧
      (Terminal env s → emisM s = (expectedIds env fams0 : List Int)) := by
  have hI := inv_reachable hr
  constructor
  · rw [← hI.hmul]
    exact Multiset.le_add_right _ _
  · intro ht
    obtain ⟨hf, hb, hw, _, _, _⟩ := terminal_drained hI ht
    have := hI.hmul
    rw [futureM_drained hf hb hw, add_zero] at this
    exact this

/-- When every plugin-detail fetch of a listed ID succeeds, filtering by
success is the identity and the expected output is everything listed. -/
theorem expectedIds_eq_listed (env : Env) (families : List Int)
    (hpd : ∀ id ∈ listedIds env families, detOk env id = true) :
    expectedIds env families = listedIds env families := by
  induction families with
  | nil => rfl
  | cons f rest ih =>
    have hsplit : listedIds env (f :: rest)
        = (match env.familyDetails f with
            | Except.error _ => []
            | Except.ok ids => ids) ++ listedIds env rest := by
      simp [listedIds]
    have hsplit2 : expectedIds env (f :: rest) = famExpected env f ++ expectedIds env rest := by
      simp [expectedIds]
    rw [hsplit2, hsplit]
    rw [ih fun id hid => hpd id (by rw [hsplit]; exact List.mem_append.mpr (Or.inr hid))]
    congr 1
    cases hfd : env.familyDetails f with
    | error e => simp [famExpected, hfd]
    | ok ids =>
      simp only [famExpected, hfd, successIds]
      refine List.filter_eq_self.mpr fun id hid => ?_
      refine hpd id ?_
      rw [hsplit, hfd]
      exact List.mem_append.mpr (Or.inl hid)

/-- A family whose detail fetch fails contributes nothing to the expected
output: dropping it leaves the expected output of every other family
untouched. -/
theorem expectedIds_drop_failed (env : Env) (families : List Int) (a : Int) (e : String)
    (ha : env.familyDetails a = Except.error e) :
    expectedIds env families = expectedIds env (families.filter fun g => g ≠ a) := by
  induction families with
  | nil => rfl
  | cons f rest ih =>
    have h1 : expectedIds env (f :: rest) = famExpected env f ++ expectedIds env rest := by
      simp [expectedIds]
    by_cases hfa : f = a
    · have h2 : (f :: rest).filter (fun g => g ≠ a) = rest.filter fun g => g ≠ a := by
        simp [List.filter_cons, hfa]
      have h3 : famExpected env f = [] := by
        rw [hfa]
        simp [famExpected, ha]
      rw [h1, h2, ← ih, h3, List.nil_append]
    · have h2 : (f :: rest).filter (fun g => g ≠ a) = f :: rest.filter fun g => g ≠ a := by
        simp [List.filter_cons, hfa]
      have h3 : expectedIds env (f :: rest.filter fun g => g ≠ a)
          = famExpected env f ++ expectedIds env (rest.filter fun g => g ≠ a) := by
        simp [expectedIds]
      rw [h1, h2, h3, ← ih]

/-- A plugin ID whose detail fetch fails is never part of the expected
output. -/
theorem not_mem_expected {env : Env} {families : List Int} {b : Int}
    (hb : detOk env b = false) : b ∉ expectedIds env families := by
  intro hmem
  rcases List.mem_flatten.mp hmem with ⟨l, hl, hbl⟩
  rcases List.mem_map.mp hl with ⟨f, _, rfl⟩
  cases hfd : env.familyDetails f with
  | error e => simp [famExpected, hfd] at hbl
  | ok ids =>
    simp only [famExpected, hfd, successIds] at hbl
    have := List.of_mem_filter hbl
    rw [hb] at this
    cases this

/-- The executable terminality check is sound. -/
theorem terminal_of_check {env : Env} {s : PState} (h : terminalCheck env s = true) :
    Terminal env s := by
  simp only [terminalCheck, Bool.and_eq_true, List.all_eq_true, List.mem_range,
    Option.isNone_iff_eq_none] at h
  obtain ⟨⟨h1, h2⟩, h3⟩ := h
  intro a
  cases a with
  | fam i =>
    by_cases hi : i < s.fams.length
    · exact h1 i hi
    · have hnone : s.fams[i]? = none := List.getElem?_eq_none (Nat.le_of_not_lt hi)
      simp [step, famStep, hnone]
  | worker j =>
    by_cases hj : j < s.workers.length
    · exact h2 j hj
    · have hnone : s.workers[j]? = none := List.getElem?_eq_none (Nat.le_of_not_lt hj)
      simp [step, workerStep, hnone]
  | coord => exact h3

/-! ## The remaining client operations the claims mention
(`Logout`, `newNessus`, `NewFingerprintedNessus`) -/

/-- The fields of `nessusImpl` (src/nessie.go:94-112) that carry data; the
embedded `*http.Client` is pure transport and is represented by the
request oracle passed to each operation instead. -/
structure NessusImpl where
  authCookie : String
  apiURL : String
  accessKey : String
  secretKey : String
  apiToken : String
  verbose : Bool
deriving DecidableEq, Repr

/-- `n.Logout()` (src/nessie.go:335-349).  `req` is the embedded
`n.Request` call, mapping a method and resource to the outcome of the
HTTP exchange; the returned triple is the error result, the client state
after the call, and the list of requests issued during the call. -/
def Logout (n : NessusImpl) (req : String → String → Except String Unit) :
    Except String Unit × NessusImpl × List (String × String) :=
  if n.authCookie = "" then (Except.ok (), n, [])
  else
    match req "DELETE" "/session" with
    | Except.error e => (Except.error e, n, [("DELETE", "/session")])
    | Except.ok _ => (Except.ok (), { n with authCookie := "" }, [("DELETE", "/session")])

/-- `newNessus` (src/nessie.go:135-185).  The file system read
(`ioutil.ReadFile`), the certificate-pool load (`AppendCertsFromPEM`) and
`getApiToken` are embedded as oracles; TLS configuration carries no data
relevant to the claims and is omitted from the result. -/
def newNessus (apiURL caCertPath accessKey secretKey : String)
    (isUseApiKey ignoreSSLCertsErrors verifyCertFingerprint : Bool)
    (certFingerprints : List String)
    (readFile : String → Except String String)
    (appendCertsFromPEM : String → Bool)
    (apiTokenOf : String → String) : Except String NessusImpl :=
  if caCertPath.length ≠ 0 then
    match readFile caCertPath with
    | Except.error e => Except.error e
    | Except.ok rootPEM =>
      if appendCertsFromPEM rootPEM then
        Except.ok { apiURL := apiURL, accessKey := accessKey, secretKey := secretKey,
                    apiToken := apiTokenOf apiURL, authCookie := "", verbose := false }
      else Except.error ("could not append certs from PEM " ++ caCertPath)
  else if verifyCertFingerprint = true then
    if certFingerprints.length = 0 then
      Except.error "fingerprint verification enabled, fingerprint must not be empty"
    else
      Except.ok { apiURL := apiURL, accessKey := accessKey, secretKey := secretKey,
                  apiToken := apiTokenOf apiURL, authCookie := "", verbose := false }
  else
    Except.ok { apiURL := apiURL, accessKey := accessKey, secretKey := secretKey,
                apiToken := apiTokenOf apiURL, authCookie := "", verbose := false }

/-- `NewFingerprintedNessus` (src/nessie.go:131-133). -/
def NewFingerprintedNessus (apiURL : String) (certFingerprints : List String)
    (readFile : String → Except String String)
    (appendCertsFromPEM : String → Bool)
    (apiTokenOf : String → String) : Except String NessusImpl :=
  newNessus apiURL "" "" "" false true true certFingerprints readFile appendCertsFromPEM apiTokenOf

/-! ## Claim theorems -/

/-- C1: in every run of `AllPlugins`, the number of `PluginDetails`
records emitted on the returned channel never exceeds, and at completion
equals, the number of plugin IDs belonging to families whose
`FamilyDetails` fetch succeeded and whose own `PluginDetails` fetch
succeeded. -/
theorem allPlugins_emit_count (env : Env) (families : List Int) (s0 s : PState)
    (tr : List Action)
    (hA : AllPlugins env = Except.ok s0) (hfam : env.pluginFamilies = Except.ok families)
    (hr : run env s0 tr = some s) :
    s.emitted.length ≤ (expectedIds env families).length ∧
      (Terminal env s → s.emitted.length = (expectedIds env families).length) := by
  have hs0 : s0 = initState families := by
    simp [AllPlugins, hfam] at hA
    exact hA.symm
  subst hs0
  have h := emitted_eq_expected ⟨tr, hr⟩
  constructor
  · have hc := Multiset.card_le_card h.1
    simpa [emisM] using hc
  · intro ht
    have hc := congrArg Multiset.card (h.2 ht)
    simpa [emisM] using hc

/-- C2: if the family listing succeeds, every `FamilyDetails` call
succeeds, and every listed plugin's `PluginDetails` call succeeds, then
the multiset of plugin IDs whose records are emitted by a completed run
of `AllPlugins` equals the multiset union of all plugin IDs listed
across all families, regardless of emission order. -/
theorem allPlugins_emit_multiset (env : Env) (families : List Int) (s0 s : PState)
    (tr : List Action)
    (hA : AllPlugins env = Except.ok s0) (hfam : env.pluginFamilies = Except.ok families)
    (hfd : ∀ f ∈ families, ∃ ids, env.familyDetails f = Except.ok ids)
    (hpd : ∀ id ∈ listedIds env families, detOk env id = true)
    (hr : run env s0 tr = some s) (ht : Terminal env s) :
    emisM s = (listedIds env families : List Int) := by
  have hs0 : s0 = initState families := by
    simp [AllPlugins, hfam] at hA
    exact hA.symm
  subst hs0
  have h := (emitted_eq_expected ⟨tr, hr⟩).2 ht
  rw [h, expectedIds_eq_listed env families hpd]

/-- C3: in every reachable state of `AllPlugins`, `idChan` is closed only
once every family goroutine has exited (so no further enqueue step
exists), and `plugChan` is closed only once the pending-plugin barrier
`wgp` is zero (so no worker step can ever emit another record). -/
theorem allPlugins_close_order (env : Env) (families : List Int) (s0 s : PState)
    (tr : List Action)
    (hA : AllPlugins env = Except.ok s0) (hfam : env.pluginFamilies = Except.ok families)
    (hr : run env s0 tr = some s) :
    (s.idClosed = true → (∀ t ∈ s.fams, t = FamTask.done) ∧ ∀ i, famStep env s i = none) ∧
      (s.plugClosed = true → s.wgp = 0 ∧
        ∀ j s', workerStep env s j = some s' → s'.emitted = s.emitted) := by
  have hs0 : s0 = initState families := by
    simp [AllPlugins, hfam] at hA
    exact hA.symm
  subst hs0
  have hre : ReachableFrom env families s := ⟨tr, hr⟩
  have hI := inv_reachable hre
  constructor
  · intro hic
    have hnf : s.coord ≠ Coord.waitFams := by
      rcases hI.hidc.mp hic with hc | hc | hc <;> (rw [hc]; intro hh; cases hh)
    have hwgf0 : s.wgf = 0 := hI.hcf hnf
    have hdone : ∀ t ∈ s.fams, t = FamTask.done := by
      intro t htm
      have hz : s.fams.countP (fun t => !FamTask.isDone t) = 0 := by
        have := hI.hwgf; omega
      have := List.countP_eq_zero.mp hz t htm
      cases t <;> simp at this <;> rfl
    refine ⟨hdone, fun i => ?_⟩
    cases hg : s.fams[i]? with
    | none => simp [famStep, hg]
    | some t =>
      have := hdone t (List.getElem?_mem hg)
      subst this
      simp [famStep, hg]
  · intro hpc
    have hfin : s.coord = Coord.finished := hI.hplc.mp hpc
    have hwgp0 : s.wgp = 0 := hI.hcp (Or.inr hfin)
    refine ⟨hwgp0, fun j s' hstep => ?_⟩
    have hg0 : ∃ w, s.workers[j]? = some w := by
      cases hg : s.workers[j]?
      · simp [workerStep, hg] at hstep
      · exact ⟨_, rfl⟩
    obtain ⟨w, hg⟩ := hg0
    cases w with
    | idle =>
      cases hbuf : s.idBuf with
      | cons id rest =>
        simp [workerStep, hg, hbuf] at hstep
        rw [← hstep]
      | nil =>
        by_cases hcl : s.idClosed
        · simp [workerStep, hg, hbuf, hcl] at hstep
          rw [← hstep]
        · simp [workerStep, hg, hbuf, hcl] at hstep
    | running id =>
      cases hpd : env.pluginDetails id <;> (simp [workerStep, hg, hpd] at hstep; rw [← hstep])
    | sending id rec => simp [workerStep, hg, hpc] at hstep
    | deccing =>
      simp [workerStep, hg] at hstep
      rw [← hstep]
    | exited => simp [workerStep, hg] at hstep

/-- C4: in every reachable state of `AllPlugins` the pending-plugin
counter `wgp` accounts for every plugin ID that is past its `wgp.Add(1)`:
those an enqueueing family goroutine holds, those buffered in `idChan`,
and those held by a busy worker.  Hence an observer seeing both counters
at zero sees no family goroutine alive, an empty queue, and no busy
worker: no plugin task is still about to be scheduled. -/
theorem allPlugins_increment_before_visible (env : Env) (families : List Int)
    (s0 s : PState) (tr : List Action)
    (hA : AllPlugins env = Except.ok s0) (hfam : env.pluginFamilies = Except.ok families)
    (hr : run env s0 tr = some s) :
    s.wgp = s.fams.countP FamTask.isAdding + s.idBuf.length
        + s.workers.countP Worker.isBusy ∧
      (s.wgf = 0 → s.wgp = 0 → (∀ t ∈ s.fams, t = FamTask.done) ∧ s.idBuf = [] ∧
        ∀ w ∈ s.workers, w.isBusy = false) := by
  have hs0 : s0 = initState families := by
    simp [AllPlugins, hfam] at hA
    exact hA.symm
  subst hs0
  have hre : ReachableFrom env families s := ⟨tr, hr⟩
  have hI := inv_reachable hre
  refine ⟨hI.hwgp, fun hf hp => ?_⟩
  have hdone : ∀ t ∈ s.fams, t = FamTask.done := by
    intro t htm
    have hz : s.fams.countP (fun t => !FamTask.isDone t) = 0 := by
      have := hI.hwgf; omega
    have := List.countP_eq_zero.mp hz t htm
    cases t <;> simp at this <;> rfl
  have hbuf : s.idBuf = [] := by
    have := hI.hwgp
    have hlen : s.idBuf.length = 0 := by omega
    exact List.length_eq_zero.mp hlen
  have hnb : s.workers.countP Worker.isBusy = 0 := by
    have := hI.hwgp
    omega
  exact ⟨hdone, hbuf, fun w hw => by
    have := List.countP_eq_zero.mp hnb w hw
    cases hbv : w.isBusy
    · rfl
    · exact absurd hbv this⟩

/-- C5: `AllPlugins` returns an error exactly when the initial
`PluginFamilies` listing fails, and the returned error is that listing's
error; the entire result is a function of the family listing alone, so no
downstream per-family or per-plugin failure is ever surfaced to the
caller, and in the error case no pipeline state (no output channel)
exists. -/
theorem allPlugins_error_only_from_family_listing (env env' : Env)
    (h : env.pluginFamilies = env'.pluginFamilies) :
    (∀ e, AllPlugins env = Except.error e ↔ env.pluginFamilies = Except.error e) ∧
      AllPlugins env = AllPlugins env' := by
  constructor
  · intro e
    cases hf : env.pluginFamilies with
    | error e' => simp [AllPlugins, hf]
    | ok families => simp [AllPlugins, hf]
  · rw [AllPlugins, AllPlugins, h]

/-- C6: when the `FamilyDetails` fetch of one family fails, a completed
run of `AllPlugins` emits exactly the expected records of the remaining
families: the failed family is dropped silently and every other family's
contribution is unaffected. -/
theorem allPlugins_family_failure_isolated (env : Env) (families : List Int)
    (s0 s : PState) (tr : List Action) (a : Int) (e : String)
    (hA : AllPlugins env = Except.ok s0) (hfam : env.pluginFamilies = Except.ok families)
    (ha : env.familyDetails a = Except.error e)
    (hr : run env s0 tr = some s) (ht : Terminal env s) :
    emisM s = (expectedIds env (families.filter fun g => g ≠ a) : List Int) := by
  have hs0 : s0 = initState families := by
    simp [AllPlugins, hfam] at hA
    exact hA.symm
  subst hs0
  have h := (emitted_eq_expected ⟨tr, hr⟩).2 ht
  rw [h, expectedIds_drop_failed env families a e ha]

/-- C7: a `PluginDetails` failure for one plugin does not prevent sibling
plugins from being emitted: a completed run still emits exactly the
expected multiset, which omits the failed plugin and keeps every
successful one, and the pending-plugin counter has returned to zero (each
dequeued plugin was decremented exactly once, fetched or failed). -/
theorem allPlugins_plugin_failure_isolated (env : Env) (families : List Int)
    (s0 s : PState) (tr : List Action) (b : Int) (e : String)
    (hA : AllPlugins env = Except.ok s0) (hfam : env.pluginFamilies = Except.ok families)
    (hb : env.pluginDetails b = Except.error e)
    (hr : run env s0 tr = some s) (ht : Terminal env s) :
    emisM s = (expectedIds env families : List Int) ∧
      b ∉ s.emitted.map Prod.fst ∧ s.wgp = 0 := by
  have hs0 : s0 = initState families := by
    simp [AllPlugins, hfam] at hA
    exact hA.symm
  subst hs0
  have hre : ReachableFrom env families s := ⟨tr, hr⟩
  have hI := inv_reachable hre
  have h := (emitted_eq_expected ⟨tr, hr⟩).2 ht
  refine ⟨h, ?_, ?_⟩
  · intro hmem
    have hbm : b ∈ emisM s := by
      simp only [emisM, Multiset.mem_coe]
      exact hmem
    rw [h] at hbm
    have : b ∈ expectedIds env families := by
      simpa using hbm
    exact not_mem_expected (by simp [detOk, hb]) this
  · exact (terminal_drained hI ht).2.2.2.2.2

/-- C8: in every reachable state of `AllPlugins` the worker pool has
exactly the fixed size 10 hard-coded in the source, and at most that many
`PluginDetails` fetches are in flight simultaneously. -/
theorem allPlugins_worker_pool_bound (env : Env) (families : List Int)
    (s0 s : PState) (tr : List Action)
    (hA : AllPlugins env = Except.ok s0) (hfam : env.pluginFamilies = Except.ok families)
    (hr : run env s0 tr = some s) :
    s.workers.length = numWorkers ∧ s.workers.countP Worker.inFlight ≤ numWorkers := by
  have hs0 : s0 = initState families := by
    simp [AllPlugins, hfam] at hA
    exact hA.symm
  subst hs0
  have hre : ReachableFrom env families s := ⟨tr, hr⟩
  have hI := inv_reachable hre
  refine ⟨hI.wlen, ?_⟩
  calc s.workers.countP Worker.inFlight ≤ s.workers.length := List.countP_le_length _
    _ = numWorkers := hI.wlen

/-- C9: `Logout` on a client whose `authCookie` is empty returns `nil`
without issuing any HTTP request and leaves the client unchanged. -/
theorem logout_no_cookie_noop (n : NessusImpl)
    (req : String → String → Except String Unit) (h : n.authCookie = "") :
    Logout n req = (Except.ok (), n, []) := by
  rw [Logout, if_pos h]

/-- C10: `newNessus` with fingerprint verification enabled, an empty
`caCertPath` and no fingerprints returns an error and no client, as
`NewFingerprintedNessus` does when given an empty slice. -/
theorem newNessus_empty_fingerprints_error (apiURL caCertPath accessKey secretKey : String)
    (isUseApiKey ignoreSSLCertsErrors : Bool) (certFingerprints : List String)
    (readFile : String → Except String String) (appendCertsFromPEM : String → Bool)
    (apiTokenOf : String → String)
    (hc : caCertPath = "") (hf : certFingerprints = []) :
    newNessus apiURL caCertPath accessKey secretKey isUseApiKey ignoreSSLCertsErrors true
        certFingerprints readFile appendCertsFromPEM apiTokenOf
      = Except.error "fingerprint verification enabled, fingerprint must not be empty" ∧
    NewFingerprintedNessus apiURL certFingerprints readFile appendCertsFromPEM apiTokenOf
      = Except.error "fingerprint verification enabled, fingerprint must not be empty" := by
  subst hc hf
  constructor
  · rw [newNessus]
    simp
  · rw [NewFingerprintedNessus, newNessus]
    simp

/-! ## Concrete scenarios used by the witnesses -/

/-- Two families, plugins `[10, 11]` and `[12]`, every fetch succeeds. -/
def envA : Env where
  pluginFamilies := Except.ok [1, 2]
  familyDetails := fun f =>
    if f = 1 then Except.ok [10, 11]
    else if f = 2 then Except.ok [12]
    else Except.error "no such family"
  pluginDetails := fun id => Except.ok { id := id }

/-- A complete schedule for `envA`: each family goroutine runs to its end,
worker 0 drains the queue, the coordinator closes both channels, and all
ten workers observe the closed empty queue and exit. -/
def traceA : List Action :=
  [Action.fam 0, Action.fam 0, Action.fam 0, Action.fam 0, Action.fam 0, Action.fam 0,
   Action.fam 1, Action.fam 1, Action.fam 1, Action.fam 1,
   Action.worker 0, Action.worker 0, Action.worker 0, Action.worker 0,
   Action.worker 0, Action.worker 0, Action.worker 0, Action.worker 0,
   Action.worker 0, Action.worker 0, Action.worker 0, Action.worker 0,
   Action.coord, Action.coord, Action.coord, Action.coord,
   Action.worker 0, Action.worker 1, Action.worker 2, Action.worker 3, Action.worker 4,
   Action.worker 5, Action.worker 6, Action.worker 7, Action.worker 8, Action.worker 9]

/-- The terminal state `traceA` reaches from `initState [1, 2]` in `envA`. -/
def finalA : PState where
  fams := [FamTask.done, FamTask.done]
  workers := [Worker.exited, Worker.exited, Worker.exited, Worker.exited, Worker.exited,
              Worker.exited, Worker.exited, Worker.exited, Worker.exited, Worker.exited]
  idBuf := []
  idClosed := true
  plugClosed := true
  emitted := [(10, { id := 10 }), (11, { id := 11 }), (12, { id := 12 })]
  wgf := 0
  wgp := 0
  coord := Coord.finished

/-- Two families: family 1's detail fetch fails, family 2 lists `[20, 21]`
and every plugin fetch succeeds. -/
def envB : Env where
  pluginFamilies := Except.ok [1, 2]
  familyDetails := fun f =>
    if f = 1 then Except.error "family fetch failed"
    else if f = 2 then Except.ok [20, 21]
    else Except.error "no such family"
  pluginDetails := fun id => Except.ok { id := id }

/-- A complete schedule for `envB`. -/
def traceB : List Action :=
  [Action.fam 0,
   Action.fam 1, Action.fam 1, Action.fam 1, Action.fam 1, Action.fam 1, Action.fam 1,
   Action.worker 0, Action.worker 0, Action.worker 0, Action.worker 0,
   Action.worker 0, Action.worker 0, Action.worker 0, Action.worker 0,
   Action.coord, Action.coord, Action.coord, Action.coord,
   Action.worker 0, Action.worker 1, Action.worker 2, Action.worker 3, Action.worker 4,
   Action.worker 5, Action.worker 6, Action.worker 7, Action.worker 8, Action.worker 9]

/-- The terminal state `traceB` reaches from `initState [1, 2]` in `envB`. -/
def finalB : PState where
  fams := [FamTask.done, FamTask.done]
  workers := [Worker.exited, Worker.exited, Worker.exited, Worker.exited, Worker.exited,
              Worker.exited, Worker.exited, Worker.exited, Worker.exited, Worker.exited]
  idBuf := []
  idClosed := true
  plugClosed := true
  emitted := [(20, { id := 20 }), (21, { id := 21 })]
  wgf := 0
  wgp := 0
  coord := Coord.finished

/-- One family with plugins `[1, 2, 3]`; the detail fetch of plugin 2
fails, the others succeed. -/
def envC : Env where
  pluginFamilies := Except.ok [1]
  familyDetails := fun f =>
    if f = 1 then Except.ok [1, 2, 3] else Except.error "no such family"
  pluginDetails := fun id =>
    if id = 2 then Except.error "plugin fetch failed" else Except.ok { id := id }

/-- A complete schedule for `envC`. -/
def traceC : List Action :=
  [Action.fam 0, Action.fam 0, Action.fam 0, Action.fam 0, Action.fam 0,
   Action.fam 0, Action.fam 0, Action.fam 0,
   Action.worker 0, Action.worker 0, Action.worker 0, Action.worker 0,
   Action.worker 0, Action.worker 0, Action.worker 0,
   Action.worker 0, Action.worker 0, Action.worker 0, Action.worker 0,
   Action.coord, Action.coord, Action.coord, Action.coord,
   Action.worker 0, Action.worker 1, Action.worker 2, Action.worker 3, Action.worker 4,
   Action.worker 5, Action.worker 6, Action.worker 7, Action.worker 8, Action.worker 9]

/-- The terminal state `traceC` reaches from `initState [1]` in `envC`. -/
def finalC : PState where
  fams := [FamTask.done]
  workers := [Worker.exited, Worker.exited, Worker.exited, Worker.exited, Worker.exited,
              Worker.exited, Worker.exited, Worker.exited, Worker.exited, Worker.exited]
  idBuf := []
  idClosed := true
  plugClosed := true
  emitted := [(1, { id := 1 }), (3, { id := 3 })]
  wgf := 0
  wgp := 0
  coord := Coord.finished

/-- An environment whose initial family listing fails. -/
def envErr : Env where
  pluginFamilies := Except.error "listing failed"
  familyDetails := fun _ => Except.ok [99]
  pluginDetails := fun id => Except.ok { id := id }

/-- Same failed listing as `envErr` but every downstream call fails too. -/
def envErr2 : Env where
  pluginFamilies := Except.error "listing failed"
  familyDetails := fun _ => Except.error "family fetch failed"
  pluginDetails := fun _ => Except.error "plugin fetch failed"

/-- A logged-out client. -/
def clientNoCookie : NessusImpl where
  authCookie := ""
  apiURL := "https://nessus.example:8834"
  accessKey := ""
  secretKey := ""
  apiToken := ""
  verbose := false

/-! ## Witnesses -/

theorem allPlugins_emit_count_witness :
    finalA.emitted.length ≤ (expectedIds envA [1, 2]).length ∧
      (Terminal envA finalA →
        finalA.emitted.length = (expectedIds envA [1, 2]).length) :=
  allPlugins_emit_count envA [1, 2] (initState [1, 2]) finalA traceA rfl rfl rfl

theorem allPlugins_emit_multiset_witness :
    emisM finalA = (listedIds envA [1, 2] : List Int) :=
  allPlugins_emit_multiset envA [1, 2] (initState [1, 2]) finalA traceA rfl rfl
    (fun f hf => by
      rcases List.mem_cons.mp hf with rfl | hf
      · exact ⟨[10, 11], rfl⟩
      · rcases List.mem_cons.mp hf with rfl | hf
        · exact ⟨[12], rfl⟩
        · cases hf)
    (by decide)
    rfl (terminal_of_check rfl)

theorem allPlugins_close_order_witness :
    (finalA.idClosed = true → (∀ t ∈ finalA.fams, t = FamTask.done)
        ∧ ∀ i, famStep envA finalA i = none) ∧
      (finalA.plugClosed = true → finalA.wgp = 0 ∧
        ∀ j s', workerStep envA finalA j = some s' → s'.emitted = finalA.emitted) :=
  allPlugins_close_order envA [1, 2] (initState [1, 2]) finalA traceA rfl rfl rfl

theorem allPlugins_increment_before_visible_witness :
    finalA.wgp = finalA.fams.countP FamTask.isAdding + finalA.idBuf.length
        + finalA.workers.countP Worker.isBusy ∧
      (finalA.wgf = 0 → finalA.wgp = 0 →
        (∀ t ∈ finalA.fams, t = FamTask.done) ∧ finalA.idBuf = [] ∧
          ∀ w ∈ finalA.workers, w.isBusy = false) :=
  allPlugins_increment_before_visible envA [1, 2] (initState [1, 2]) finalA traceA rfl rfl rfl

theorem allPlugins_error_only_from_family_listing_witness :
    (∀ e, AllPlugins envErr = Except.error e ↔
        envErr.pluginFamilies = Except.error e) ∧
      AllPlugins envErr = AllPlugins envErr2 :=
  allPlugins_error_only_from_family_listing envErr envErr2 rfl

theorem allPlugins_family_failure_isolated_witness :
    emisM finalB = (expectedIds envB ([1, 2].filter fun g => g ≠ 1) : List Int) ∧
      finalB.emitted.length = 2 :=
  ⟨allPlugins_family_failure_isolated envB [1, 2] (initState [1, 2]) finalB traceB 1
      "family fetch failed" rfl rfl rfl rfl (terminal_of_check rfl),
   rfl⟩

theorem allPlugins_plugin_failure_isolated_witness :
    (emisM finalC = (expectedIds envC [1] : List Int) ∧
        (2 : Int) ∉ finalC.emitted.map Prod.fst ∧ finalC.wgp = 0) ∧
      finalC.emitted.map Prod.fst = [1, 3] :=
  ⟨allPlugins_plugin_failure_isolated envC [1] (initState [1]) finalC traceC 2
      "plugin fetch failed" rfl rfl rfl rfl (terminal_of_check rfl),
   rfl⟩

theorem allPlugins_worker_pool_bound_witness :
    finalA.workers.length = numWorkers ∧
      finalA.workers.countP Worker.inFlight ≤ numWorkers :=
  allPlugins_worker_pool_bound envA [1, 2] (initState [1, 2]) finalA traceA rfl rfl rfl

theorem logout_no_cookie_noop_witness :
    Logout clientNoCookie (fun _ _ => Except.ok ())
      = (Except.ok (), clientNoCookie, []) :=
  logout_no_cookie_noop clientNoCookie (fun _ _ => Except.ok ()) rfl

theorem newNessus_empty_fingerprints_error_witness :
    newNessus "https://nessus.example:8834" "" "" "" false true true []
        (fun _ => Except.error "no file") (fun _ => false) (fun _ => "")
      = Except.error "fingerprint verification enabled, fingerprint must not be empty" ∧
    NewFingerprintedNessus "https://nessus.example:8834" []
        (fun _ => Except.error "no file") (fun _ => false) (fun _ => "")
      = Except.error "fingerprint verification enabled, fingerprint must not be empty" :=
  newNessus_empty_fingerprints_error "https://nessus.example:8834" "" "" "" false true []
    (fun _ => Except.error "no file") (fun _ => false) (fun _ => "") rfl rfl

end Nessie
